import Mathlib

/-!
Verification of the battery-cell session workflow in `src/demo.py`.

The program keeps three pieces of Streamlit session state
(`cells_data`, `cell_types`, `step`) and mutates them through five UI
actions: Add Cell, the per-cell current input, Continue to Monitoring,
Back to Cell Setup, and Reset All.  We embed the state and the five
handlers over ℚ (Python floats are modelled as rationals, with Python's
`round(x, n)` modelled as round-to-nearest at `n` decimal places) and
prove the spec's claims about them.
-/

/-- The two cell chemistries offered by the selectbox (source stores the
lower-cased strings `"lfp"` / `"nmc"` in `cell_types`). -/
inductive CellType where
  | lfp
  | nmc
deriving DecidableEq, Repr, Fintype

/-- The string stored in `cell_types` / interpolated into the dict key. -/
def CellType.str : CellType → String
  | .lfp => "lfp"
  | .nmc => "nmc"

/-- One value of the `cells_data` dict (source lines 132–140). -/
structure Cell where
  voltage : ℚ
  current : ℚ
  temp : ℚ
  capacity : ℚ
  min_voltage : ℚ
  max_voltage : ℚ
  type : CellType
deriving DecidableEq, Repr

/-- The whole Streamlit session state (source lines 62–67).  Python dicts
preserve insertion order, so `cells_data` is an ordered association list. -/
structure SessionState where
  cells_data : List (String × Cell)
  cell_types : List CellType
  step : Nat
deriving DecidableEq, Repr

/-- Initial session state (source lines 62–67). -/
def initState : SessionState :=
  { cells_data := [], cell_types := [], step := 1 }

/-- Python's built-in `round` to the nearest integer (banker's rounding:
ties go to the even neighbour), on an exact rational. -/
def pyRoundInt (x : ℚ) : ℤ :=
  let f := x.floor
  if x - f < 1/2 then f
  else if 1/2 < x - f then f + 1
  else if f % 2 = 0 then f else f + 1

/-- Python's `round(x, 1)`: round to the nearest tenth (source line 130). -/
def round1 (x : ℚ) : ℚ := (pyRoundInt (x * 10) : ℚ) / 10

/-- Python's `round(x, 2)`: round to the nearest hundredth (source line 206). -/
def round2 (x : ℚ) : ℚ := (pyRoundInt (x * 100) : ℚ) / 100

/-- The synthetic dict key `f"cell_{len(cell_types)}_{cell_type}"`
(source line 126). -/
def cellKey (n : Nat) (t : CellType) : String :=
  "cell_" ++ Nat.repr n ++ "_" ++ t.str

/-- Python dict assignment `d[k] = v`: overwrite in place if the key is
present, otherwise append. -/
def dictInsert (d : List (String × Cell)) (k : String) (v : Cell) :
    List (String × Cell) :=
  if k ∈ d.map Prod.fst then
    d.map (fun p => if p.1 = k then (k, v) else p)
  else
    d ++ [(k, v)]

/-- The Add Cell handler (source lines 120–141).  `selected` is the
selectbox value (`none` models the "Select cell type..." placeholder) and
`u` is the value drawn by `random.uniform(25, 40)`.  The button is
disabled when no kind is chosen or `len(cell_types) >= 8`, and it is only
rendered on the Step 1 page (line 103). -/
def addCell (s : SessionState) (selected : Option CellType) (u : ℚ) :
    SessionState :=
  match selected with
  | none => s
  | some t =>
    if s.step = 1 ∧ s.cell_types.length < 8 then
      let cell_types' := s.cell_types ++ [t]
      let cell_key := cellKey cell_types'.length t
      let voltage : ℚ := if t = .lfp then 3.2 else 3.6
      let min_voltage : ℚ := if t = .lfp then 2.8 else 3.2
      let max_voltage : ℚ := if t = .lfp then 3.6 else 4.0
      let temp := round1 u
      { s with
        cell_types := cell_types',
        cells_data := dictInsert s.cells_data cell_key
          { voltage := voltage, current := 0, temp := temp, capacity := 0,
            min_voltage := min_voltage, max_voltage := max_voltage,
            type := t } }
    else s

/-- The body of the current-input loop for one dict entry (source lines
204–206): if the entry is the one being edited and the new value differs
from the stored one, write `current` and recompute
`capacity = round(voltage * new_current, 2)`; otherwise leave it alone. -/
def updateCurrent (k : String) (v : ℚ) (p : String × Cell) : String × Cell :=
  if p.1 = k ∧ v ≠ p.2.current then
    (p.1, { p.2 with current := v, capacity := round2 (p.2.voltage * v) })
  else p

/-- The current-input handler (source lines 195–206).  It lives on the
Step 2 page (line 171); the value `v` comes from a `number_input` bounded
to `[0, 100]`, and the write only happens when `new_current != current`. -/
def setCurrent (s : SessionState) (k : String) (v : ℚ) : SessionState :=
  if s.step = 2 then
    { s with cells_data := s.cells_data.map (updateCurrent k v) }
  else s

/-- The Continue to Monitoring button (source lines 166–168).  It is only
rendered on the Step 1 page and inside `if st.session_state.cell_types:`
(line 144), so it requires a non-empty cell list. -/
def continueMonitoring (s : SessionState) : SessionState :=
  if s.step = 1 ∧ s.cell_types ≠ [] then { s with step := 2 } else s

/-- The Back to Cell Setup button (source lines 177–179), rendered only on
the Step 2 page. -/
def backToSetup (s : SessionState) : SessionState :=
  if s.step = 2 then { s with step := 1 } else s

/-- The Reset All button (source lines 78–82): always available, clears
everything. -/
def resetAll (_s : SessionState) : SessionState :=
  { cells_data := [], cell_types := [], step := 1 }

/-- The Quick Stats average temperature (source line 95): `np.mean` over
the dict values, computed only inside `if st.session_state.cells_data:`
(line 92), i.e. omitted when the dict is empty. -/
def avgTemperature (s : SessionState) : Option ℚ :=
  if s.cells_data = [] then none
  else some ((s.cells_data.map (fun p => p.2.temp)).sum / s.cells_data.length)

/-- States reachable from the initial session state by the five UI
actions.  The temperature argument of an add is constrained to the range
of `random.uniform(25, 40)` and the current argument of a set to the
`number_input` bounds `[0, 100]`. -/
inductive Reachable : SessionState → Prop where
  | init : Reachable initState
  | add {s} (sel : Option CellType) (u : ℚ) (hl : 25 ≤ u) (hr : u < 40) :
      Reachable s → Reachable (addCell s sel u)
  | set {s} (k : String) (v : ℚ) (hl : 0 ≤ v) (hr : v ≤ 100) :
      Reachable s → Reachable (setCurrent s k v)
  | cont {s} : Reachable s → Reachable (continueMonitoring s)
  | back {s} : Reachable s → Reachable (backToSetup s)
  | reset {s} : Reachable s → Reachable (resetAll s)

/-- The keys generated by a run of adds: the cell appended at overall
position `n + i + 1` (1-based) gets key `cellKey (n + i + 1) tᵢ`. -/
def keysFrom (n : Nat) : List CellType → List String
  | [] => []
  | t :: ts => cellKey (n + 1) t :: keysFrom (n + 1) ts

/-- The per-entry fields that no operation after creation may change:
key, voltage presets, temperature and kind. -/
def staticView (p : String × Cell) : String × ℚ × ℚ × ℚ × ℚ × CellType :=
  (p.1, p.2.voltage, p.2.min_voltage, p.2.max_voltage, p.2.temp, p.2.type)

/-- Per-cell well-formedness: the voltage presets are the constants of the
kind, the temperature is a one-decimal rounding of a draw from `[25, 40)`,
and the derived capacity matches the last-set current. -/
structure CellInv (c : Cell) : Prop where
  volt : c.voltage = if c.type = .lfp then (3.2 : ℚ) else 3.6
  minv : c.min_voltage = if c.type = .lfp then (2.8 : ℚ) else 3.2
  maxv : c.max_voltage = if c.type = .lfp then (3.6 : ℚ) else 4.0
  tempLo : 25 ≤ c.temp
  tempHi : c.temp ≤ 40
  cap : c.capacity = round2 (c.voltage * c.current)

/-- The invariant maintained by every UI action: the two parallel cell
structures are the key list and kind list of the same run of adds, all
cells are well-formed, and the Monitor page is only reachable with at
least one cell. -/
structure SessionInv (s : SessionState) : Prop where
  lenLe : s.cell_types.length ≤ 8
  keys : s.cells_data.map Prod.fst = keysFrom 0 s.cell_types
  kinds : s.cells_data.map (fun p => p.2.type) = s.cell_types
  cells : ∀ p ∈ s.cells_data, CellInv p.2
  stepOk : s.step = 1 ∨ s.step = 2
  monNonempty : s.step = 2 → s.cell_types ≠ []

/-- A state with one LFP cell added (draw 30 °C). -/
def demoAdd : SessionState := addCell initState (some .lfp) 30

/-- The state demoAdd after Continue to Monitoring. -/
def demoMonitor : SessionState := continueMonitoring demoAdd

/-- The key of the first LFP cell. -/
def demoKey : String := "cell_1_lfp"

/-- The state demoMonitor after setting the LFP cell's current to 5 A. -/
def demoSet : SessionState := setCurrent demoMonitor demoKey 5

/-- The LFP cell record of `demoSet`. -/
def demoCellSet : Cell :=
  { voltage := 3.2, current := 5, temp := 30, capacity := 16,
    min_voltage := 2.8, max_voltage := 3.6, type := .lfp }

/-- The LFP cell record of `demoAdd`. -/
def demoCellAdd : Cell :=
  { voltage := 3.2, current := 0, temp := 30, capacity := 0,
    min_voltage := 2.8, max_voltage := 3.6, type := .lfp }

/-- A state with two cells whose temperatures are 25.0 and 40.0 (draws
25 and 39.99). -/
def demoTwo : SessionState :=
  addCell (addCell initState (some .lfp) 25) (some .nmc) (3999/100)

/-- A state with eight cells added (all LFP, draw 30 °C). -/
def demoFull : SessionState :=
  addCell (addCell (addCell (addCell (addCell (addCell (addCell (addCell
    initState (some .lfp) 30) (some .lfp) 30) (some .lfp) 30) (some .lfp) 30)
    (some .lfp) 30) (some .lfp) 30) (some .lfp) 30) (some .lfp) 30

/-! ### Helper lemmas about rounding -/

lemma le_pyRoundInt (z : ℤ) (x : ℚ) (h : (z : ℚ) ≤ x) : z ≤ pyRoundInt x := by
  have hf : z ≤ x.floor := Rat.le_floor.mpr h
  unfold pyRoundInt
  dsimp only
  split_ifs <;> omega

lemma pyRoundInt_le (z : ℤ) (x : ℚ) (h : x < (z : ℚ)) : pyRoundInt x ≤ z := by
  have hf : x.floor < z := by
    by_contra hc
    push_neg at hc
    exact absurd (Rat.le_floor.mp hc) (not_le.mpr h)
  unfold pyRoundInt
  dsimp only
  split_ifs <;> omega

lemma round1_lower {u : ℚ} (h : 25 ≤ u) : 25 ≤ round1 u := by
  have h10 : ((250 : ℤ) : ℚ) ≤ u * 10 := by push_cast; linarith
  have hz : ((250 : ℤ) : ℚ) ≤ (pyRoundInt (u * 10) : ℚ) :=
    Int.cast_le.mpr (le_pyRoundInt 250 (u * 10) h10)
  unfold round1
  push_cast at hz ⊢
  linarith

lemma round1_upper {u : ℚ} (h : u < 40) : round1 u ≤ 40 := by
  have h10 : u * 10 < ((400 : ℤ) : ℚ) := by push_cast; linarith
  have hz : (pyRoundInt (u * 10) : ℚ) ≤ ((400 : ℤ) : ℚ) :=
    Int.cast_le.mpr (pyRoundInt_le 400 (u * 10) h10)
  unfold round1
  push_cast at hz ⊢
  linarith

lemma round2_zero : round2 0 = 0 := by with_unfolding_all decide

/-! ### Helper lemmas about keys and the dict -/

lemma keysFrom_append (n : Nat) (ts : List CellType) (t : CellType) :
    keysFrom n (ts ++ [t]) = keysFrom n ts ++ [cellKey (n + ts.length + 1) t] := by
  induction ts generalizing n with
  | nil => simp [keysFrom]
  | cons hd tl ih =>
      have h1 : n + 1 + tl.length + 1 = n + (tl.length + 1) + 1 := by omega
      simp only [List.cons_append, keysFrom, List.append_eq, ih (n + 1),
        List.length_cons, h1]

lemma mem_keysFrom {x : String} {n : Nat} {ts : List CellType} (h : x ∈ keysFrom n ts) :
    ∃ i t, i < ts.length ∧ x = cellKey (n + i + 1) t := by
  induction ts generalizing n with
  | nil => simp [keysFrom] at h
  | cons hd tl ih =>
      simp only [keysFrom, List.mem_cons] at h
      rcases h with h | h
      · exact ⟨0, hd, by simp, by simpa using h⟩
      · obtain ⟨i, t, hi, hx⟩ := ih h
        exact ⟨i + 1, t, by simpa using hi, by rw [hx]; congr 1; omega⟩

lemma cellKey_inj : ∀ m, m < 9 → ∀ n, n < 9 → ∀ t u : CellType,
    cellKey m t = cellKey n u → m = n ∧ t = u := by decide

lemma dictInsert_fresh {d : List (String × Cell)} {k : String} (v : Cell)
    (h : k ∉ d.map Prod.fst) : dictInsert d k v = d ++ [(k, v)] := by
  simp [dictInsert, h]

/-! ### The session invariant -/

lemma keysFrom_length (n : Nat) (ts : List CellType) :
    (keysFrom n ts).length = ts.length := by
  induction ts generalizing n with
  | nil => rfl
  | cons hd tl ih => simp [keysFrom, ih]

lemma SessionInv.lenEq {s : SessionState} (h : SessionInv s) :
    s.cells_data.length = s.cell_types.length := by
  have h2 := congrArg List.length h.keys
  simpa [keysFrom_length] using h2

lemma sessionInv_init : SessionInv initState := by
  refine ⟨by simp [initState], rfl, rfl, ?_, Or.inl rfl, by simp [initState]⟩
  intro p hp
  simp [initState] at hp

/-- The key generated for the next add is not already in the dict. -/
lemma newKey_fresh {s : SessionState} (h : SessionInv s) (t : CellType)
    (hlen : s.cell_types.length < 8) :
    cellKey (s.cell_types.length + 1) t ∉ s.cells_data.map Prod.fst := by
  rw [h.keys]
  intro hmem
  obtain ⟨i, t', hi, hx⟩ := mem_keysFrom hmem
  have h2 := (cellKey_inj (s.cell_types.length + 1) (by omega) (0 + i + 1)
    (by omega) t t' hx).1
  omega

lemma addCell_none (s : SessionState) (u : ℚ) : addCell s none u = s := rfl

lemma addCell_neg {s : SessionState} (t : CellType) (u : ℚ)
    (hg : ¬(s.step = 1 ∧ s.cell_types.length < 8)) : addCell s (some t) u = s := by
  simp [addCell, if_neg hg]

lemma addCell_pos {s : SessionState} {t : CellType} (u : ℚ)
    (hg : s.step = 1 ∧ s.cell_types.length < 8) :
    addCell s (some t) u =
      { s with
        cell_types := s.cell_types ++ [t],
        cells_data := dictInsert s.cells_data (cellKey (s.cell_types.length + 1) t)
          { voltage := if t = .lfp then 3.2 else 3.6, current := 0,
            temp := round1 u, capacity := 0,
            min_voltage := if t = .lfp then 2.8 else 3.2,
            max_voltage := if t = .lfp then 3.6 else 4.0, type := t } } := by
  simp [addCell, if_pos hg]

lemma sessionInv_addCell {s : SessionState} (h : SessionInv s)
    (sel : Option CellType) {u : ℚ} (hl : 25 ≤ u) (hr : u < 40) :
    SessionInv (addCell s sel u) := by
  match sel with
  | none => exact h
  | some t =>
    by_cases hg : s.step = 1 ∧ s.cell_types.length < 8
    · rw [addCell_pos u hg, dictInsert_fresh _ (newKey_fresh h t hg.2)]
      refine ⟨?_, ?_, ?_, ?_, ?_, ?_⟩
      · simp only [List.length_append, List.length_cons, List.length_nil]
        omega
      · simp only [List.map_append, h.keys, keysFrom_append, List.map_cons,
          List.map_nil, Nat.zero_add]
      · simp only [List.map_append, h.kinds, List.map_cons, List.map_nil]
      · intro p hp
        rcases List.mem_append.mp hp with hp | hp
        · exact h.cells p hp
        · simp only [List.mem_singleton] at hp
          subst hp
          exact ⟨rfl, rfl, rfl, round1_lower hl, round1_upper hr,
            by rw [mul_zero, round2_zero]⟩
      · exact h.stepOk
      · intro _
        simp
    · rw [addCell_neg t u hg]
      exact h

lemma updateCurrent_fst (k : String) (v : ℚ) (p : String × Cell) :
    (updateCurrent k v p).1 = p.1 := by
  unfold updateCurrent
  split <;> rfl

lemma updateCurrent_static (k : String) (v : ℚ) (p : String × Cell) :
    (updateCurrent k v p).2.type = p.2.type ∧
    (updateCurrent k v p).2.voltage = p.2.voltage ∧
    (updateCurrent k v p).2.min_voltage = p.2.min_voltage ∧
    (updateCurrent k v p).2.max_voltage = p.2.max_voltage ∧
    (updateCurrent k v p).2.temp = p.2.temp := by
  unfold updateCurrent
  split <;> exact ⟨rfl, rfl, rfl, rfl, rfl⟩

lemma updateCurrent_cellInv (k : String) (v : ℚ) (p : String × Cell)
    (h : CellInv p.2) : CellInv (updateCurrent k v p).2 := by
  unfold updateCurrent
  split
  · exact ⟨h.volt, h.minv, h.maxv, h.tempLo, h.tempHi, rfl⟩
  · exact h

lemma setCurrent_neg {s : SessionState} (k : String) (v : ℚ)
    (h2 : ¬s.step = 2) : setCurrent s k v = s := by
  simp [setCurrent, if_neg h2]

lemma setCurrent_pos {s : SessionState} (k : String) (v : ℚ) (h2 : s.step = 2) :
    setCurrent s k v = { s with cells_data := s.cells_data.map (updateCurrent k v) } := by
  simp [setCurrent, if_pos h2]

lemma sessionInv_setCurrent {s : SessionState} (h : SessionInv s)
    (k : String) (v : ℚ) : SessionInv (setCurrent s k v) := by
  by_cases h2 : s.step = 2
  · rw [setCurrent_pos k v h2]
    refine ⟨h.lenLe, ?_, ?_, ?_, h.stepOk, h.monNonempty⟩
    · rw [List.map_map, ← h.keys]
      exact List.map_congr_left fun p _ => updateCurrent_fst k v p
    · rw [List.map_map, ← h.kinds]
      exact List.map_congr_left fun p _ => (updateCurrent_static k v p).1
    · intro p hp
      obtain ⟨q, hq, rfl⟩ := List.mem_map.mp hp
      exact updateCurrent_cellInv k v q (h.cells q hq)
  · rw [setCurrent_neg k v h2]
    exact h

lemma cont_cells (s : SessionState) :
    (continueMonitoring s).cells_data = s.cells_data := by
  unfold continueMonitoring
  split <;> rfl

lemma cont_types (s : SessionState) :
    (continueMonitoring s).cell_types = s.cell_types := by
  unfold continueMonitoring
  split <;> rfl

lemma back_cells (s : SessionState) :
    (backToSetup s).cells_data = s.cells_data := by
  unfold backToSetup
  split <;> rfl

lemma back_types (s : SessionState) :
    (backToSetup s).cell_types = s.cell_types := by
  unfold backToSetup
  split <;> rfl

lemma sessionInv_cont {s : SessionState} (h : SessionInv s) :
    SessionInv (continueMonitoring s) := by
  unfold continueMonitoring
  split
  · next hg =>
      exact ⟨h.lenLe, h.keys, h.kinds, h.cells, Or.inr rfl, fun _ => hg.2⟩
  · exact h

lemma sessionInv_back {s : SessionState} (h : SessionInv s) :
    SessionInv (backToSetup s) := by
  unfold backToSetup
  split
  · exact ⟨h.lenLe, h.keys, h.kinds, h.cells, Or.inl rfl, fun hc => absurd hc (by simp)⟩
  · exact h

/-- Every reachable session state satisfies the invariant. -/
theorem reachable_inv {s : SessionState} (h : Reachable s) : SessionInv s := by
  induction h with
  | init => exact sessionInv_init
  | add sel u hl hr _ ih => exact sessionInv_addCell ih sel hl hr
  | set k v _ _ _ ih => exact sessionInv_setCurrent ih k v
  | cont _ ih => exact sessionInv_cont ih
  | back _ ih => exact sessionInv_back ih
  | reset _ _ => exact sessionInv_init

/-! ### Frame lemmas: what each operation leaves untouched -/

lemma setCurrent_staticView (s : SessionState) (k : String) (v : ℚ) :
    (setCurrent s k v).cells_data.map staticView = s.cells_data.map staticView := by
  by_cases h2 : s.step = 2
  · rw [setCurrent_pos k v h2]
    dsimp only
    rw [List.map_map]
    refine List.map_congr_left fun p _ => ?_
    have hs := updateCurrent_static k v p
    have hf := updateCurrent_fst k v p
    simp only [Function.comp_apply, staticView, hf, hs.1, hs.2.1, hs.2.2.1,
      hs.2.2.2.1, hs.2.2.2.2]
  · rw [setCurrent_neg k v h2]

lemma addCell_frame {s : SessionState} (h : SessionInv s) (sel : Option CellType)
    (u : ℚ) :
    (addCell s sel u).cells_data.take s.cells_data.length = s.cells_data := by
  match sel with
  | none => exact List.take_length s.cells_data
  | some t =>
    by_cases hg : s.step = 1 ∧ s.cell_types.length < 8
    · rw [addCell_pos u hg, dictInsert_fresh _ (newKey_fresh h t hg.2)]
      exact List.take_left s.cells_data _
    · rw [addCell_neg t u hg]
      exact List.take_length s.cells_data

lemma updateCurrent_idem (k : String) (v : ℚ) (p : String × Cell) :
    updateCurrent k v (updateCurrent k v p) = updateCurrent k v p := by
  by_cases hc : p.1 = k ∧ v ≠ p.2.current
  · have h1 : updateCurrent k v p =
        (p.1, { p.2 with current := v, capacity := round2 (p.2.voltage * v) }) := by
      rw [updateCurrent, if_pos hc]
    rw [h1, updateCurrent]
    simp
  · have h1 : updateCurrent k v p = p := by rw [updateCurrent, if_neg hc]
    rw [h1, h1]

/-! ### Reachability of the concrete demo states -/

lemma reachable_demoAdd : Reachable demoAdd :=
  Reachable.add (some .lfp) 30 (by norm_num) (by norm_num) Reachable.init

lemma reachable_demoMonitor : Reachable demoMonitor :=
  Reachable.cont reachable_demoAdd

lemma reachable_demoSet : Reachable demoSet :=
  Reachable.set demoKey 5 (by norm_num) (by norm_num) reachable_demoMonitor

lemma reachable_demoTwo : Reachable demoTwo :=
  Reachable.add (some .nmc) (3999/100) (by norm_num) (by norm_num)
    (Reachable.add (some .lfp) 25 (by norm_num) (by norm_num) Reachable.init)

lemma reachable_demoFull : Reachable demoFull := by
  refine Reachable.add (some .lfp) 30 (by norm_num) (by norm_num) ?_
  refine Reachable.add (some .lfp) 30 (by norm_num) (by norm_num) ?_
  refine Reachable.add (some .lfp) 30 (by norm_num) (by norm_num) ?_
  refine Reachable.add (some .lfp) 30 (by norm_num) (by norm_num) ?_
  refine Reachable.add (some .lfp) 30 (by norm_num) (by norm_num) ?_
  refine Reachable.add (some .lfp) 30 (by norm_num) (by norm_num) ?_
  refine Reachable.add (some .lfp) 30 (by norm_num) (by norm_num) ?_
  exact Reachable.add (some .lfp) 30 (by norm_num) (by norm_num) Reachable.init

lemma keysFrom_nodup (n : Nat) (ts : List CellType) (h : n + ts.length ≤ 8) :
    (keysFrom n ts).Nodup := by
  induction ts generalizing n with
  | nil => exact List.nodup_nil
  | cons hd tl ih =>
      simp only [List.length_cons] at h
      simp only [keysFrom, List.nodup_cons]
      constructor
      · intro hmem
        obtain ⟨i, t', hi, hx⟩ := mem_keysFrom hmem
        have := (cellKey_inj (n + 1) (by omega) (n + 1 + i + 1) (by omega) hd t' hx).1
        omega
      · exact ih (n + 1) (by omega)

/-! ### The claims -/

/-- C1: the number of cells never exceeds 8 in any reachable state;
an add with 8 cells already present, or with no kind selected, leaves the
state unchanged — in particular the 9th add is a no-op. -/
theorem cell_count_never_exceeds_eight :
    (∀ s, Reachable s → s.cells_data.length ≤ 8 ∧ s.cell_types.length ≤ 8) ∧
    (∀ s sel u, 8 ≤ s.cell_types.length → addCell s sel u = s) ∧
    (∀ s u, addCell s none u = s) := by
  refine ⟨?_, ?_, fun s u => rfl⟩
  · intro s hr
    have inv := reachable_inv hr
    exact ⟨by rw [inv.lenEq]; exact inv.lenLe, inv.lenLe⟩
  · intro s sel u hlen
    match sel with
    | none => rfl
    | some t =>
      refine addCell_neg t u ?_
      intro hg
      omega

theorem cell_count_never_exceeds_eight_witness :
    demoFull.cells_data.length ≤ 8 ∧ demoFull.cell_types.length ≤ 8 ∧
    8 ≤ demoFull.cell_types.length ∧
    addCell demoFull (some CellType.lfp) 30 = demoFull :=
  ⟨(cell_count_never_exceeds_eight.1 demoFull reachable_demoFull).1,
   (cell_count_never_exceeds_eight.1 demoFull reachable_demoFull).2,
   by with_unfolding_all decide,
   cell_count_never_exceeds_eight.2.1 demoFull (some CellType.lfp) 30
     (by with_unfolding_all decide)⟩

/-- C2: in every reachable state, every cell's derived capacity equals
`round(voltage * current, 2)`; in particular setting 5 A on the one LFP
cell yields capacity 16.0. -/
theorem capacity_always_consistent :
    (∀ s, Reachable s → ∀ p, p ∈ s.cells_data →
      p.2.capacity = round2 (p.2.voltage * p.2.current)) ∧
    demoSet.cells_data.map (fun p => p.2.capacity) = [16] := by
  constructor
  · intro s hr p hp
    exact ((reachable_inv hr).cells p hp).cap
  · with_unfolding_all decide

theorem capacity_always_consistent_witness :
    Reachable demoSet ∧ (demoKey, demoCellSet) ∈ demoSet.cells_data ∧
    demoCellSet.capacity = round2 (demoCellSet.voltage * demoCellSet.current) :=
  ⟨reachable_demoSet, by with_unfolding_all decide,
   capacity_always_consistent.1 demoSet reachable_demoSet (demoKey, demoCellSet)
     (by with_unfolding_all decide)⟩

/-- C4: the reset action returns every reachable state exactly to the
initial state `{cells: [], phase: Setup}`. -/
theorem reset_restores_initial_state :
    ∀ s, Reachable s → resetAll s = initState :=
  fun _ _ => rfl

theorem reset_restores_initial_state_witness :
    Reachable demoSet ∧ resetAll demoSet = initState :=
  ⟨reachable_demoSet, reset_restores_initial_state demoSet reachable_demoSet⟩

/-- C6: setting the same current twice is the same as setting it once
(the second write is skipped because the value already matches). -/
theorem setCurrent_idempotent :
    ∀ (s : SessionState) (k : String) (v : ℚ), 0 ≤ v → v ≤ 100 →
      setCurrent (setCurrent s k v) k v = setCurrent s k v := by
  intro s k v _ _
  obtain ⟨c, t, st⟩ := s
  by_cases h2 : st = 2
  · subst h2
    rw [setCurrent_pos k v rfl, setCurrent_pos k v rfl]
    dsimp only
    rw [List.map_map]
    congr 1
    exact List.map_congr_left fun p _ => updateCurrent_idem k v p
  · have hs : setCurrent (SessionState.mk c t st) k v = SessionState.mk c t st :=
      setCurrent_neg k v h2
    rw [hs, hs]

theorem setCurrent_idempotent_witness :
    (0 : ℚ) ≤ 5 ∧ (5 : ℚ) ≤ 100 ∧
    setCurrent (setCurrent demoMonitor demoKey 5) demoKey 5 =
      setCurrent demoMonitor demoKey 5 :=
  ⟨by norm_num, by norm_num,
   setCurrent_idempotent demoMonitor demoKey 5 (by norm_num) (by norm_num)⟩

/-- C3: cells are created with the kind's fixed voltage presets
(LFP: 3.2/2.8/3.6, NMC: 3.6/3.2/4.0) and no later operation changes them:
setCurrent keeps every static field, the phase transitions keep the cell
list entirely, and an add only appends after the existing cells. -/
theorem kind_constants_immutable :
    (∀ s, Reachable s → ∀ p, p ∈ s.cells_data →
      (p.2.type = CellType.lfp →
        p.2.voltage = 3.2 ∧ p.2.min_voltage = 2.8 ∧ p.2.max_voltage = 3.6) ∧
      (p.2.type = CellType.nmc →
        p.2.voltage = 3.6 ∧ p.2.min_voltage = 3.2 ∧ p.2.max_voltage = 4.0)) ∧
    (∀ s k v, (setCurrent s k v).cells_data.map staticView =
      s.cells_data.map staticView) ∧
    (∀ s, (continueMonitoring s).cells_data = s.cells_data) ∧
    (∀ s, (backToSetup s).cells_data = s.cells_data) ∧
    (∀ s, Reachable s → ∀ sel u,
      (addCell s sel u).cells_data.take s.cells_data.length = s.cells_data) := by
  refine ⟨?_, setCurrent_staticView, cont_cells, back_cells,
    fun s hr sel u => addCell_frame (reachable_inv hr) sel u⟩
  intro s hr p hp
  have hc := (reachable_inv hr).cells p hp
  refine ⟨fun ht => ?_, fun ht => ?_⟩ <;>
    simp [hc.volt, hc.minv, hc.maxv, ht]

theorem kind_constants_immutable_witness :
    Reachable demoAdd ∧ (demoKey, demoCellAdd) ∈ demoAdd.cells_data ∧
    (demoCellAdd.type = CellType.lfp →
      demoCellAdd.voltage = 3.2 ∧ demoCellAdd.min_voltage = 2.8 ∧
      demoCellAdd.max_voltage = 3.6) ∧
    (addCell demoAdd (some CellType.nmc) 30).cells_data.take
      demoAdd.cells_data.length = demoAdd.cells_data :=
  ⟨reachable_demoAdd, by with_unfolding_all decide,
   (kind_constants_immutable.1 demoAdd reachable_demoAdd (demoKey, demoCellAdd)
     (by with_unfolding_all decide)).1,
   kind_constants_immutable.2.2.2.2 demoAdd reachable_demoAdd (some CellType.nmc) 30⟩

/-- C5: from any reachable Monitor state, going back to Setup and then
continuing returns exactly the original state — cells untouched, phase
restored. -/
theorem monitor_setup_monitor_roundtrip :
    ∀ s, Reachable s → s.step = 2 → continueMonitoring (backToSetup s) = s := by
  intro s hr h2
  have hne := (reachable_inv hr).monNonempty h2
  obtain ⟨c, t, st⟩ := s
  simp only at h2 hne
  subst h2
  show continueMonitoring (backToSetup (SessionState.mk c t 2)) = SessionState.mk c t 2
  rw [backToSetup, if_pos rfl]
  rw [continueMonitoring, if_pos ⟨rfl, hne⟩]

theorem monitor_setup_monitor_roundtrip_witness :
    Reachable demoMonitor ∧ demoMonitor.step = 2 ∧
    continueMonitoring (backToSetup demoMonitor) = demoMonitor :=
  ⟨reachable_demoMonitor, by with_unfolding_all decide,
   monitor_setup_monitor_roundtrip demoMonitor reachable_demoMonitor
     (by with_unfolding_all decide)⟩

/-- C7 (counterexample): the strict bound `temperatureC < 40` fails on the
code: the draw 39.99 lies in `[25, 40)` but is stored rounded to one
decimal, giving a cell whose temperature is exactly 40. -/
theorem temperature_strict_upper_bound_fails :
    ((25 : ℚ) ≤ 3999/100 ∧ (3999/100 : ℚ) < 40) ∧
    (addCell initState (some CellType.lfp) (3999/100)).cells_data.map
      (fun p => p.2.temp) = [40] ∧
    ¬ (∀ p ∈ (addCell initState (some CellType.lfp) (3999/100)).cells_data,
        p.2.temp < 40) := by
  refine ⟨⟨by norm_num, by norm_num⟩, by with_unfolding_all decide,
    by with_unfolding_all decide⟩

/-- C7 (amended): every cell's stored temperature lies in `[25, 40]`
(the upper end 40.0 is attainable because the draw from `[25, 40)` is
rounded to one decimal), and no later operation ever changes it. -/
theorem temperature_bounds_and_immutable :
    (∀ s, Reachable s → ∀ p, p ∈ s.cells_data →
      25 ≤ p.2.temp ∧ p.2.temp ≤ 40) ∧
    (∀ s k v, (setCurrent s k v).cells_data.map staticView =
      s.cells_data.map staticView) ∧
    (∀ s, (continueMonitoring s).cells_data = s.cells_data) ∧
    (∀ s, (backToSetup s).cells_data = s.cells_data) ∧
    (∀ s, Reachable s → ∀ sel u,
      (addCell s sel u).cells_data.take s.cells_data.length = s.cells_data) := by
  refine ⟨?_, setCurrent_staticView, cont_cells, back_cells,
    fun s hr sel u => addCell_frame (reachable_inv hr) sel u⟩
  intro s hr p hp
  have hc := (reachable_inv hr).cells p hp
  exact ⟨hc.tempLo, hc.tempHi⟩

theorem temperature_bounds_and_immutable_witness :
    Reachable demoAdd ∧ (demoKey, demoCellAdd) ∈ demoAdd.cells_data ∧
    (25 ≤ demoCellAdd.temp ∧ demoCellAdd.temp ≤ 40) :=
  ⟨reachable_demoAdd, by with_unfolding_all decide,
   temperature_bounds_and_immutable.1 demoAdd reachable_demoAdd
     (demoKey, demoCellAdd) (by with_unfolding_all decide)⟩

/-- C8: the average temperature is the arithmetic mean of the cells'
temperatures when there is at least one cell (32.5 for temperatures
25.0 and 40.0), and is omitted — not computed — when there are none. -/
theorem avg_temperature_mean_or_omitted :
    (∀ s, s.cells_data = [] → avgTemperature s = none) ∧
    (∀ s, s.cells_data ≠ [] → avgTemperature s =
      some ((s.cells_data.map (fun p => p.2.temp)).sum / s.cells_data.length)) ∧
    avgTemperature demoTwo = some (65/2) ∧
    avgTemperature initState = none := by
  refine ⟨?_, ?_, by with_unfolding_all decide, rfl⟩
  · intro s h
    simp [avgTemperature, h]
  · intro s h
    simp [avgTemperature, h]

theorem avg_temperature_mean_or_omitted_witness :
    demoTwo.cells_data ≠ [] ∧
    avgTemperature demoTwo =
      some ((demoTwo.cells_data.map (fun p => p.2.temp)).sum / demoTwo.cells_data.length) :=
  ⟨by with_unfolding_all decide,
   avg_temperature_mean_or_omitted.2.1 demoTwo (by with_unfolding_all decide)⟩

/-- C9: the Monitor phase is reachable only with at least one cell, and
from Setup any non-empty cell list — with no upper guard — lets the
continue action switch to Monitor. -/
theorem monitor_requires_nonempty :
    (∀ s, Reachable s → s.step = 2 → s.cell_types ≠ [] ∧ s.cells_data ≠ []) ∧
    (∀ s, s.step = 1 → s.cell_types ≠ [] → (continueMonitoring s).step = 2) := by
  constructor
  · intro s hr h2
    have inv := reachable_inv hr
    have hne := inv.monNonempty h2
    refine ⟨hne, fun hc => ?_⟩
    have hlen : s.cell_types.length = 0 := by
      have := inv.lenEq
      rw [hc] at this
      simpa using this.symm
    exact hne (List.length_eq_zero.mp hlen)
  · intro s h1 hne
    rw [continueMonitoring, if_pos ⟨h1, hne⟩]

theorem monitor_requires_nonempty_witness :
    Reachable demoMonitor ∧ demoMonitor.step = 2 ∧
    (demoMonitor.cell_types ≠ [] ∧ demoMonitor.cells_data ≠ []) ∧
    demoAdd.step = 1 ∧ demoAdd.cell_types ≠ [] ∧
    (continueMonitoring demoAdd).step = 2 :=
  ⟨reachable_demoMonitor, by with_unfolding_all decide,
   monitor_requires_nonempty.1 demoMonitor reachable_demoMonitor
     (by with_unfolding_all decide),
   by with_unfolding_all decide, by with_unfolding_all decide,
   monitor_requires_nonempty.2 demoAdd (by with_unfolding_all decide)
     (by with_unfolding_all decide)⟩

/-- C10: the key list and the kind list stay synchronized: equal lengths,
pairwise-distinct generated keys, the i-th record's kind equal to the i-th
list entry, and an enabled add growing the dict by exactly one entry
(never overwriting). -/
theorem parallel_structures_in_sync :
    ∀ s, Reachable s →
      s.cells_data.length = s.cell_types.length ∧
      (s.cells_data.map Prod.fst).Nodup ∧
      s.cells_data.map (fun p => p.2.type) = s.cell_types ∧
      (∀ t u, s.step = 1 → s.cell_types.length < 8 →
        (addCell s (some t) u).cells_data.length = s.cells_data.length + 1) := by
  intro s hr
  have inv := reachable_inv hr
  refine ⟨inv.lenEq, ?_, inv.kinds, ?_⟩
  · rw [inv.keys]
    exact keysFrom_nodup 0 s.cell_types (by simpa using inv.lenLe)
  · intro t u h1 hlt
    rw [addCell_pos u ⟨h1, hlt⟩, dictInsert_fresh _ (newKey_fresh inv t hlt)]
    simp

theorem parallel_structures_in_sync_witness :
    Reachable demoAdd ∧
    demoAdd.cells_data.length = demoAdd.cell_types.length ∧
    demoAdd.step = 1 ∧ demoAdd.cell_types.length < 8 ∧
    (addCell demoAdd (some CellType.nmc) 30).cells_data.length =
      demoAdd.cells_data.length + 1 :=
  ⟨reachable_demoAdd,
   (parallel_structures_in_sync demoAdd reachable_demoAdd).1,
   by with_unfolding_all decide, by with_unfolding_all decide,
   (parallel_structures_in_sync demoAdd reachable_demoAdd).2.2.2 CellType.nmc 30
     (by with_unfolding_all decide) (by with_unfolding_all decide)⟩
